import Mathlib

/-!
Verification development for the `termo` terminal-UI library.

The Go source is shallowly embedded: Go `int` and `rune` become `Int`
(a rune is its Unicode code point), Go byte slices become `List Nat`,
the framebuffer's cell slice becomes a `List cell`, and every method
becomes a pure function returning the updated value.  Process-wide
state (the remembered cursor position consulted by `Flush`) is passed
explicitly as parameters.  Go strings are represented by their sequence
of code points (`List Char`); `range` over a Go string iterates code
points, while `len` of a Go string is its UTF-8 byte count, modelled by
`utf8Len`.  Output written to the terminal is modelled as the list of
code points printed (`List Int`).
-/

/-- Go: `type Attribute int`. -/
abbrev Attribute := Int

/-- Go: `AttrNone Attribute = 0`. -/
def AttrNone : Attribute := 0

/-- Go: `type Color int`. -/
abbrev Color := Int

/-- Go: `ColorDefault Color = 39`. -/
def ColorDefault : Color := 39

/-- Go: `ColorBlack Color = 30`. -/
def ColorBlack : Color := 30

/-- Go: `func (c Color) Light() Color { return c + 60 }`. -/
def Color.Light (c : Color) : Color := c + 60

/-- Go: `func background(c Color) Color { return c + 10 }`. -/
def background (c : Color) : Color := c + 10

/-- Go: `type CellState struct { Attrib Attribute; FGColor Color; BGColor Color }`. -/
structure CellState where
  Attrib : Attribute
  FGColor : Color
  BGColor : Color
deriving DecidableEq, Repr

/-- Go: `StateDefault = CellState{Attrib: AttrNone, FGColor: ColorDefault, BGColor: ColorDefault}`. -/
def StateDefault : CellState := ⟨AttrNone, ColorDefault, ColorDefault⟩

/-- Go: `type cell struct { state CellState; r rune }`. -/
structure cell where
  state : CellState
  r : Int
deriving DecidableEq, Repr

/-- The zero value of Go's `cell` struct, as produced by `make([]cell, n)`. -/
def zeroCell : cell := ⟨⟨0, 0, 0⟩, 0⟩

/-- Go: `type Framebuffer struct { w, h int; chars []cell }`. -/
structure Framebuffer where
  w : Int
  h : Int
  chars : List cell
deriving DecidableEq, Repr

/-- The length invariant `len(chars) == w*h` that `NewFramebuffer`
establishes and every operation preserves. -/
def WF (f : Framebuffer) : Prop := f.chars.length = (f.w * f.h).toNat

instance (f : Framebuffer) : Decidable (WF f) := by
  unfold WF; infer_instance

/-- Go `Framebuffer.Get`: returns `(' ', CellState{AttrNone, ColorDefault,
ColorDefault})` out of bounds, otherwise the cell `chars[x+y*w]`. -/
def Framebuffer.Get (f : Framebuffer) (x y : Int) : Int × CellState :=
  if x < 0 ∨ y < 0 ∨ f.w ≤ x ∨ f.h ≤ y then (32, ⟨AttrNone, ColorDefault, ColorDefault⟩)
  else
    let c := f.chars.getD (x + y * f.w).toNat zeroCell
    (c.r, c.state)

/-- Go `Framebuffer.Set`: out of bounds is a silent no-op; otherwise
writes both the rune and the state of `chars[x+y*w]`. -/
def Framebuffer.Set (f : Framebuffer) (x y : Int) (s : CellState) (r : Int) : Framebuffer :=
  if x < 0 ∨ y < 0 ∨ f.w ≤ x ∨ f.h ≤ y then f
  else { f with chars := f.chars.set (x + y * f.w).toNat ⟨s, r⟩ }

/-- Go `Framebuffer.SetRune`: out of bounds is a silent no-op; otherwise
writes the rune of `chars[x+y*w]`, leaving its state unchanged. -/
def Framebuffer.SetRune (f : Framebuffer) (x y : Int) (r : Int) : Framebuffer :=
  if x < 0 ∨ y < 0 ∨ f.w ≤ x ∨ f.h ≤ y then f
  else
    let old := f.chars.getD (x + y * f.w).toNat zeroCell
    { f with chars := f.chars.set (x + y * f.w).toNat ⟨old.state, r⟩ }

/-- The values taken by a Go loop `for v := a; v < a+n; v++` (`n` iterations
when `n > 0`, none otherwise): `a, a+1, ..., a+n-1` with `n.toNat` terms. -/
def intRange (a : Int) (n : Nat) : List Int :=
  (List.range n).map fun (i : Nat) => a + (i : Int)

/-- The nested loop shape shared by the rectangle primitives: for each `y`
in `ys` (outer loop), for each `x` in `xs` (inner loop), apply the
per-cell body `g x y`. -/
def cellFold (g : Int → Int → Framebuffer → Framebuffer)
    (f : Framebuffer) (ys xs : List Int) : Framebuffer :=
  ys.foldl (fun fb y => xs.foldl (fun fb x => g x y fb) fb) f

/-- Go `Framebuffer.SetRect`: `for y := y0; y < y0+h; y++ { for x := x0;
x < x0+w; x++ { f.Set(x, y, s, r) } }`. -/
def Framebuffer.SetRect (f : Framebuffer) (x0 y0 w h : Int) (s : CellState) (r : Int) :
    Framebuffer :=
  cellFold (fun x y fb => fb.Set x y s r) f (intRange y0 h.toNat) (intRange x0 w.toNat)

/-- The loop body of Go `Framebuffer.AttribRect`:
`if x >= 0 && y >= 0 && x < f.w && y < f.h { f.chars[x+y*f.w].state = s }`
(the rune of the cell is kept). -/
def attribBody (s : CellState) (x y : Int) (fb : Framebuffer) : Framebuffer :=
  if 0 ≤ x ∧ 0 ≤ y ∧ x < fb.w ∧ y < fb.h then
    let old := fb.chars.getD (x + y * fb.w).toNat zeroCell
    { fb with chars := fb.chars.set (x + y * fb.w).toNat ⟨s, old.r⟩ }
  else fb

/-- Go `Framebuffer.AttribRect`: the same nested loop over the rectangle,
applying `attribBody` to every visited cell. -/
def Framebuffer.AttribRect (f : Framebuffer) (x0 y0 w h : Int) (s : CellState) :
    Framebuffer :=
  cellFold (attribBody s) f (intRange y0 h.toNat) (intRange x0 w.toNat)

/-- Go: `var singleWidthCharset = []rune{'─', '│', '┌', '┐', '└', '┘'}`,
written as the code points U+2500, U+2502, U+250C, U+2510, U+2514, U+2518. -/
def singleWidthCharset : List Int :=
  [0x2500, 0x2502, 0x250C, 0x2510, 0x2514, 0x2518]

/-- Go: `var doubleWidthCharset = []rune{'═', '║', '╔', '╗', '╚', '╝'}`,
written as the code points U+2550, U+2551, U+2554, U+2557, U+255A, U+255D. -/
def doubleWidthCharset : List Int :=
  [0x2550, 0x2551, 0x2554, 0x2557, 0x255A, 0x255D]

/-- The rune the `ASCIIRect` loop body selects for position `(x, y)`
(`none` models the `continue` taken for interior cells when
`clearInside` is false).  The branch order mirrors the source: `x == x0`
first, then `x == x0+w-1`, then the horizontal edges, then the interior. -/
def asciiRectRune (c : List Int) (x0 y0 w h : Int) (clearInside : Bool) (x y : Int) :
    Option Int :=
  if x = x0 then
    some (if y = y0 then c.getD 2 0 else if y = y0 + h - 1 then c.getD 4 0 else c.getD 1 0)
  else if x = x0 + w - 1 then
    some (if y = y0 then c.getD 3 0 else if y = y0 + h - 1 then c.getD 5 0 else c.getD 1 0)
  else if y = y0 ∨ y = y0 + h - 1 then
    some (c.getD 0 0)
  else if clearInside then some 32 else none

/-- The loop body of Go `Framebuffer.ASCIIRect`: compute the border rune
for the visited cell (`none` is the `continue`) and write it with
`SetRune`. -/
def asciiBody (c : List Int) (x0 y0 w h : Int) (clearInside : Bool) (x y : Int)
    (fb : Framebuffer) : Framebuffer :=
  match asciiRectRune c x0 y0 w h clearInside x y with
  | some r => fb.SetRune x y r
  | none => fb

/-- Go `Framebuffer.ASCIIRect`: the same nested loop, choosing the charset
by `doubleWidth` and applying `asciiBody` to every visited cell. -/
def Framebuffer.ASCIIRect (f : Framebuffer) (x0 y0 w h : Int)
    (doubleWidth clearInside : Bool) : Framebuffer :=
  cellFold (asciiBody (if doubleWidth then doubleWidthCharset else singleWidthCharset)
    x0 y0 w h clearInside) f (intRange y0 h.toNat) (intRange x0 w.toNat)

/-- Go `Framebuffer.SetText`: iterate the string's code points carrying
`(i, y0)`; a newline resets `i` to `0` and increments `y0`; any other
code point is written with `SetRune(x0+i, y0, r)` and increments `i`. -/
def Framebuffer.SetText (f : Framebuffer) (x0 y0 : Int) (t : List Char) : Framebuffer :=
  (t.foldl (fun (p : Framebuffer × Int × Int) rv =>
    if rv = '\n' then (p.1, 0, p.2.2 + 1)
    else (p.1.SetRune (x0 + p.2.1) p.2.2 (rv.toNat : Int), p.2.1 + 1, p.2.2)) (f, 0, y0)).1

/-- UTF-8 byte length of a Go string given as its code points
(Go `len(s)` for a string is its byte count). -/
def utf8Len (s : List Char) : Nat := (s.map Char.utf8Size).sum

/-- Go `strings.Split(t, "\n")` for a single-character separator:
splits at every newline, keeping empty fields (`"" ↦ [""]`). -/
def splitLines : List Char → List (List Char)
  | [] => [[]]
  | ch :: rest =>
    if ch = '\n' then [] :: splitLines rest
    else
      match splitLines rest with
      | [] => [[ch]]
      | l :: ls => (ch :: l) :: ls

/-- Go `Framebuffer.CenterText`: split on newlines; for line number `y`
(carried as the running row `p.2`, starting at `y0`) write each code
point with `SetRune(x+i-len(s)/2, y0+y, r)`, where `len(s)` is the
line's byte length. -/
def Framebuffer.CenterText (f : Framebuffer) (x y0 : Int) (t : List Char) : Framebuffer :=
  ((splitLines t).foldl (fun (p : Framebuffer × Int) s =>
    ((s.foldl (fun (q : Framebuffer × Int) rv =>
        (q.1.SetRune (x + q.2 - ((utf8Len s / 2 : Nat) : Int)) p.2 (rv.toNat : Int),
         q.2 + 1)) (p.1, (0 : Int))).1,
     p.2 + 1)) (f, y0)).1

/-- Go `Framebuffer.Clear`: `f.SetRect(0, 0, f.w, f.h, StateDefault, ' ')`. -/
def Framebuffer.Clear (f : Framebuffer) : Framebuffer :=
  f.SetRect 0 0 f.w f.h StateDefault 32

/-- Go `NewFramebuffer(w, h)`: allocate `make([]cell, w*h)` (zero-valued
cells) and `Clear` it. -/
def NewFramebuffer (w h : Int) : Framebuffer :=
  (Framebuffer.mk w h (List.replicate (w * h).toNat zeroCell)).Clear

/-- Decimal digits of `n`, most significant first, as code points
(`fuel` bounds the recursion; `fuel ≥ n` always suffices). -/
def decDigitsAux : Nat → Nat → List Int
  | 0, _ => []
  | fuel + 1, n =>
    if n < 10 then [48 + (n : Int)]
    else decDigitsAux fuel (n / 10) ++ [48 + ((n % 10 : Nat) : Int)]

/-- The decimal rendering of an integer as code points, as produced by
Go's `fmt` verb `%d`. -/
def fmtInt (i : Int) : List Int :=
  if i < 0 then 45 :: decDigitsAux i.natAbs.succ i.natAbs
  else decDigitsAux i.toNat.succ i.toNat

/-- The code points of `"\033[0;0H"` (cursor home), printed first by `Flush`. -/
def homeSeq : List Int := [27, 91, 48, 59, 48, 72]

/-- The code points of `"\033[0m"` (SGR reset). -/
def sgrReset : List Int := [27, 91, 48, 109]

/-- The code points printed for one visible cell:
`fmt.Printf("\033[%d;%d;%dm%c\033[0m", c.state.Attrib, c.state.FGColor,
background(c.state.BGColor), c.r)`. -/
def cellSeq (c : cell) : List Int :=
  [27, 91] ++ fmtInt c.state.Attrib ++ [59] ++ fmtInt c.state.FGColor ++ [59]
    ++ fmtInt (background c.state.BGColor) ++ [109, c.r] ++ sgrReset

/-- The code points of `fmt.Printf("\033[%d;%dH", row, col)`
(absolute cursor position, already 1-based). -/
def cursorToSeq (row col : Int) : List Int :=
  [27, 91] ++ fmtInt row ++ [59] ++ fmtInt col ++ [72]

/-- Go `Framebuffer.Flush`, with the process-wide `cursorPos` passed
explicitly as `(cursorX, cursorY)` and the printed stream returned as a
value: cursor home; for each row (newline before every row but the
first) each cell `chars[y*w+x]` prints nothing when `c.r < 32` and its
self-contained SGR-wrapped glyph otherwise; a final SGR reset; the
cursor-position sequence for `(cursorPos[1]+1, cursorPos[0]+1)`. -/
def Framebuffer.Flush (f : Framebuffer) (cursorX cursorY : Int) : List Int :=
  homeSeq ++
  (List.range f.h.toNat).foldl (fun acc (y : Nat) =>
    (List.range f.w.toNat).foldl (fun acc3 (x : Nat) =>
      let c := f.chars.getD ((y : Int) * f.w + (x : Int)).toNat zeroCell
      if c.r < 32 then acc3 else acc3 ++ cellSeq c)
      (if y ≠ 0 then acc ++ [10] else acc)) [] ++
  sgrReset ++ cursorToSeq (cursorY + 1) (cursorX + 1)

/-- Go: `type ScanCode []byte`, a byte slice. -/
abbrev ScanCode := List Nat

/-- Go `ScanCode.IsEscapeCode`: `len(s) > 2 && s[0] == 27 && s[1] == 91`
(the indexing is guarded by the short-circuited length test). -/
def ScanCode.IsEscapeCode (s : ScanCode) : Bool :=
  decide (2 < s.length) && (s.getD 0 0 == 27) && (s.getD 1 0 == 91)

/-- Go `ScanCode.EscapeCode`: `return s[2]` with no length guard;
`none` models the out-of-bounds panic. -/
def ScanCode.EscapeCode (s : ScanCode) : Option Nat := s.get? 2

/-- Go `ScanCode.IsMouseDownEvent`:
`len(s) == 6 && s.IsEscapeCode() && s[2] == 77 && s[3] == 32`. -/
def ScanCode.IsMouseDownEvent (s : ScanCode) : Bool :=
  (s.length == 6) && s.IsEscapeCode && (s.getD 2 0 == 77) && (s.getD 3 0 == 32)

/-- Go `ScanCode.MouseCoords`: `return int(s[4] - 33), int(s[5] - 33)` —
unguarded indexing (modelled by `none` on a short record) and *byte*
subtraction, which wraps modulo 256 before the widening to `int`. -/
def ScanCode.MouseCoords (s : ScanCode) : Option (Int × Int) :=
  match s.get? 4, s.get? 5 with
  | some a, some b => some ((((a + 256 - 33) % 256 : Nat) : Int), (((b + 256 - 33) % 256 : Nat) : Int))
  | _, _ => none

/-- Go `ReadScanCode`: allocates `ScanCode{0, 0, 0, 0, 0, 0}` and lets
`syscall.Read` fill at most its 6 bytes in place, returning the whole
6-byte record regardless of how many bytes were read.  `input` is the
pending stdin content. -/
def ReadScanCode (input : List Nat) : ScanCode :=
  input.take 6 ++ List.replicate (6 - input.length) 0

/-- `(x, y)` is inside the framebuffer grid. -/
def inB (f : Framebuffer) (x y : Int) : Prop :=
  0 ≤ x ∧ 0 ≤ y ∧ x < f.w ∧ y < f.h

instance (f : Framebuffer) (x y : Int) : Decidable (inB f x y) := by
  unfold inB; infer_instance

/-! Spec-side definitions, written from the specification's and claims'
wording, to be compared with the source-derived functions above. -/

/-- Spec wording for one cell of the `Flush` stream: nothing for a glyph
below 32, otherwise the self-contained `ESC [ attr ; fg ; bg+10 m glyph
ESC [ 0 m` sequence. -/
def cellOut (f : Framebuffer) (y x : Nat) : List Int :=
  let c := f.chars.getD ((y : Int) * f.w + (x : Int)).toNat zeroCell
  if c.r < 32 then [] else cellSeq c

/-- Spec wording for one `Flush` row: the columns `x = 0 .. W-1` in order,
concatenated. -/
def rowOut (f : Framebuffer) (y : Nat) : List Int :=
  ((List.range f.w.toNat).map (cellOut f y)).flatten

/-- Spec wording for joining rows: a single newline before each row
except the first. -/
def specBody : List (List Int) → List Int
  | [] => []
  | r :: rs => r ++ (rs.map fun q => 10 :: q).flatten

/-- Spec wording for the whole `Flush` byte stream: cursor home, the rows
`y = 0 .. H-1` joined by single newlines, a final SGR reset, and the
cursor-position sequence `ESC [ cy+1 ; cx+1 H`. -/
def flushSpecStream (f : Framebuffer) (cursorX cursorY : Int) : List Int :=
  homeSeq ++ specBody ((List.range f.h.toNat).map (rowOut f)) ++ sgrReset
    ++ cursorToSeq (cursorY + 1) (cursorX + 1)

/-- The glyph claim C4 assigns to position `(a, b)` of the border of the
rectangle `[x0, x0+w) × [y0, y0+h)`: the four corners (taking
precedence), then the horizontal edges, then the vertical edges, then
the interior (space when `clearInside`, untouched otherwise). -/
def claimGlyph (c : List Int) (x0 y0 w h : Int) (clearInside : Bool) (a b : Int) :
    Option Int :=
  if a = x0 ∧ b = y0 then some (c.getD 2 0)
  else if a = x0 + w - 1 ∧ b = y0 then some (c.getD 3 0)
  else if a = x0 ∧ b = y0 + h - 1 then some (c.getD 4 0)
  else if a = x0 + w - 1 ∧ b = y0 + h - 1 then some (c.getD 5 0)
  else if b = y0 ∨ b = y0 + h - 1 then some (c.getD 0 0)
  else if a = x0 ∨ a = x0 + w - 1 then some (c.getD 1 0)
  else if clearInside then some 32 else none

/-- Claim C6's wording of `SetText` as the glyph (if any) written to
target cell `(a, b)`: code points go left to right, one per column,
starting at the running position `(cx, cy)`; a newline emits nothing,
resets the column to `x0` and advances the row. -/
def specTextCell (x0 : Int) : Int → Int → List Char → Int → Int → Option Char
  | _, _, [], _, _ => none
  | cx, cy, ch :: cs, a, b =>
    if ch = '\n' then specTextCell x0 x0 (cy + 1) cs a b
    else if a = cx ∧ b = cy then some ch
    else specTextCell x0 (cx + 1) cy cs a b

/-- The amended claim C5's wording of `CenterText` as the glyph (if any)
written to target cell `(a, b)`: line number `k` (zero-based) occupies
row `cy + k` only, its code points filling the columns starting at
`x - bytelen(line)/2` (UTF-8 byte length, integer division). -/
def centerSpecCell (x : Int) : Int → List (List Char) → Int → Int → Option Char
  | _, [], _, _ => none
  | cy, s :: rest, a, b =>
    if b = cy then
      let st := x - ((utf8Len s / 2 : Nat) : Int)
      if st ≤ a ∧ a < st + (s.length : Int) then some (s.getD (a - st).toNat ' ')
      else none
    else centerSpecCell x (cy + 1) rest a b

/-! ### Basic lemmas about the point operations -/

theorem index_inj {w x y a b : Int} (hx0 : 0 ≤ x) (hxw : x < w) (ha0 : 0 ≤ a)
    (haw : a < w) (h : x + y * w = a + b * w) : x = a ∧ y = b := by
  have hw : 0 < w := lt_of_le_of_lt hx0 hxw
  rcases lt_trichotomy y b with hlt | heq | hgt
  · exfalso
    have h1 : (1 : Int) ≤ b - y := by omega
    have h2 : w ≤ (b - y) * w := le_mul_of_one_le_left hw.le h1
    have e : (b - y) * w = b * w - y * w := by ring
    linarith
  · subst heq
    refine ⟨by linarith, rfl⟩
  · exfalso
    have h1 : (1 : Int) ≤ y - b := by omega
    have h2 : w ≤ (y - b) * w := le_mul_of_one_le_left hw.le h1
    have e : (y - b) * w = y * w - b * w := by ring
    linarith

theorem idx_lt {w h x y : Int} (hx0 : 0 ≤ x) (hy0 : 0 ≤ y) (hxw : x < w)
    (hyh : y < h) : (x + y * w).toNat < (w * h).toNat := by
  have hw : 0 < w := lt_of_le_of_lt hx0 hxw
  have hyw : 0 ≤ y * w := mul_nonneg hy0 hw.le
  have h1 : x + y * w < w + y * w := by linarith
  have h2 : w + y * w = (y + 1) * w := by ring
  have h3 : (y + 1) * w ≤ h * w := mul_le_mul_of_nonneg_right (by omega) hw.le
  have h4 : h * w = w * h := by ring
  have h5 : x + y * w < w * h := by linarith
  have h6 : 0 ≤ x + y * w := by linarith
  omega

theorem Framebuffer.Set_w (f : Framebuffer) (x y : Int) (s : CellState) (r : Int) :
    (f.Set x y s r).w = f.w := by
  unfold Framebuffer.Set; split <;> rfl

theorem Framebuffer.Set_h (f : Framebuffer) (x y : Int) (s : CellState) (r : Int) :
    (f.Set x y s r).h = f.h := by
  unfold Framebuffer.Set; split <;> rfl

theorem Framebuffer.Set_length (f : Framebuffer) (x y : Int) (s : CellState) (r : Int) :
    (f.Set x y s r).chars.length = f.chars.length := by
  unfold Framebuffer.Set; split
  · rfl
  · simp [List.length_set]

theorem Framebuffer.SetRune_w (f : Framebuffer) (x y r : Int) :
    (f.SetRune x y r).w = f.w := by
  unfold Framebuffer.SetRune; split <;> rfl

theorem Framebuffer.SetRune_h (f : Framebuffer) (x y r : Int) :
    (f.SetRune x y r).h = f.h := by
  unfold Framebuffer.SetRune; split <;> rfl

theorem Framebuffer.SetRune_length (f : Framebuffer) (x y r : Int) :
    (f.SetRune x y r).chars.length = f.chars.length := by
  unfold Framebuffer.SetRune; split
  · rfl
  · simp [List.length_set]

theorem Framebuffer.Set_oob (f : Framebuffer) (x y : Int) (s : CellState) (r : Int)
    (h : x < 0 ∨ y < 0 ∨ f.w ≤ x ∨ f.h ≤ y) : f.Set x y s r = f := by
  unfold Framebuffer.Set
  simp [h]

theorem Framebuffer.SetRune_oob (f : Framebuffer) (x y r : Int)
    (h : x < 0 ∨ y < 0 ∨ f.w ≤ x ∨ f.h ≤ y) : f.SetRune x y r = f := by
  unfold Framebuffer.SetRune
  simp [h]

theorem Framebuffer.Get_oob (f : Framebuffer) (x y : Int)
    (h : x < 0 ∨ y < 0 ∨ f.w ≤ x ∨ f.h ≤ y) :
    f.Get x y = (32, ⟨AttrNone, ColorDefault, ColorDefault⟩) := by
  unfold Framebuffer.Get
  simp [h]

theorem Framebuffer.Get_Set_other (f : Framebuffer) (x y a b : Int) (s : CellState)
    (r : Int) (hne : ¬(a = x ∧ b = y)) : (f.Set x y s r).Get a b = f.Get a b := by
  obtain ⟨w, h, cs⟩ := f
  simp only [Framebuffer.Set]
  split
  next => rfl
  next hxy =>
    push_neg at hxy
    obtain ⟨hx0, hy0, hxw, hyh⟩ := hxy
    simp only [Framebuffer.Get]
    split
    next => rfl
    next hab =>
      push_neg at hab
      obtain ⟨ha0, hb0, haw, hbh⟩ := hab
      simp only [List.getD_eq_getElem?_getD]
      rw [List.getElem?_set_ne]
      intro hEq
      have hw : (0 : Int) < w := lt_of_le_of_lt hx0 hxw
      have hyw : 0 ≤ y * w := mul_nonneg hy0 hw.le
      have hbw : 0 ≤ b * w := mul_nonneg hb0 hw.le
      have n1 : 0 ≤ x + y * w := by linarith
      have n2 : 0 ≤ a + b * w := by linarith
      have hsum : x + y * w = a + b * w := by omega
      obtain ⟨hxa, hyb⟩ := index_inj hx0 hxw ha0 haw hsum
      exact hne ⟨hxa.symm, hyb.symm⟩

theorem Framebuffer.Get_Set_self (f : Framebuffer) (x y : Int) (s : CellState) (r : Int)
    (hwf : WF f) (hin : inB f x y) : (f.Set x y s r).Get x y = (r, s) := by
  obtain ⟨w, h, cs⟩ := f
  unfold WF at hwf
  obtain ⟨hx0, hy0, hxw, hyh⟩ := hin
  have hc : ¬(x < 0 ∨ y < 0 ∨ w ≤ x ∨ h ≤ y) := by push_neg; exact ⟨hx0, hy0, hxw, hyh⟩
  simp only [Framebuffer.Set, Framebuffer.Get]
  simp only [if_neg hc]
  simp only [List.getD_eq_getElem?_getD]
  rw [List.getElem?_set_self]
  · rfl
  · rw [hwf]
    exact idx_lt hx0 hy0 hxw hyh

theorem Framebuffer.Get_SetRune_other (f : Framebuffer) (x y a b r : Int)
    (hne : ¬(a = x ∧ b = y)) : (f.SetRune x y r).Get a b = f.Get a b := by
  obtain ⟨w, h, cs⟩ := f
  simp only [Framebuffer.SetRune]
  split
  next => rfl
  next hxy =>
    push_neg at hxy
    obtain ⟨hx0, hy0, hxw, hyh⟩ := hxy
    simp only [Framebuffer.Get]
    split
    next => rfl
    next hab =>
      push_neg at hab
      obtain ⟨ha0, hb0, haw, hbh⟩ := hab
      simp only [List.getD_eq_getElem?_getD]
      rw [List.getElem?_set_ne]
      intro hEq
      have hw : (0 : Int) < w := lt_of_le_of_lt hx0 hxw
      have hyw : 0 ≤ y * w := mul_nonneg hy0 hw.le
      have hbw : 0 ≤ b * w := mul_nonneg hb0 hw.le
      have n1 : 0 ≤ x + y * w := by linarith
      have n2 : 0 ≤ a + b * w := by linarith
      have hsum : x + y * w = a + b * w := by omega
      obtain ⟨hxa, hyb⟩ := index_inj hx0 hxw ha0 haw hsum
      exact hne ⟨hxa.symm, hyb.symm⟩

theorem Framebuffer.Get_SetRune_self (f : Framebuffer) (x y r : Int)
    (hwf : WF f) (hin : inB f x y) :
    (f.SetRune x y r).Get x y = (r, (f.Get x y).2) := by
  obtain ⟨w, h, cs⟩ := f
  unfold WF at hwf
  obtain ⟨hx0, hy0, hxw, hyh⟩ := hin
  have hc : ¬(x < 0 ∨ y < 0 ∨ w ≤ x ∨ h ≤ y) := by push_neg; exact ⟨hx0, hy0, hxw, hyh⟩
  simp only [Framebuffer.SetRune, Framebuffer.Get]
  simp only [if_neg hc]
  simp only [List.getD_eq_getElem?_getD]
  rw [List.getElem?_set_self]
  · rfl
  · rw [hwf]
    exact idx_lt hx0 hy0 hxw hyh

theorem not_inB_iff (f : Framebuffer) (x y : Int) :
    ¬ inB f x y ↔ (x < 0 ∨ y < 0 ∨ f.w ≤ x ∨ f.h ≤ y) := by
  unfold inB
  omega

theorem attribBody_w (s : CellState) (x y : Int) (fb : Framebuffer) :
    (attribBody s x y fb).w = fb.w := by
  unfold attribBody; split <;> rfl

theorem attribBody_h (s : CellState) (x y : Int) (fb : Framebuffer) :
    (attribBody s x y fb).h = fb.h := by
  unfold attribBody; split <;> rfl

theorem attribBody_length (s : CellState) (x y : Int) (fb : Framebuffer) :
    (attribBody s x y fb).chars.length = fb.chars.length := by
  unfold attribBody; split
  · simp [List.length_set]
  · rfl

theorem attribBody_oob (s : CellState) (x y : Int) (fb : Framebuffer)
    (h : ¬ inB fb x y) : attribBody s x y fb = fb := by
  unfold attribBody
  rw [if_neg]
  unfold inB at h
  exact h

theorem attribBody_other (s : CellState) (x y a b : Int) (fb : Framebuffer)
    (hne : ¬(a = x ∧ b = y)) : (attribBody s x y fb).Get a b = fb.Get a b := by
  obtain ⟨w, h, cs⟩ := fb
  simp only [attribBody]
  split
  next hxy =>
    obtain ⟨hx0, hy0, hxw, hyh⟩ := hxy
    simp only [Framebuffer.Get]
    split
    next => rfl
    next hab =>
      push_neg at hab
      obtain ⟨ha0, hb0, haw, hbh⟩ := hab
      simp only [List.getD_eq_getElem?_getD]
      rw [List.getElem?_set_ne]
      intro hEq
      have hw : (0 : Int) < w := lt_of_le_of_lt hx0 hxw
      have hyw : 0 ≤ y * w := mul_nonneg hy0 hw.le
      have hbw : 0 ≤ b * w := mul_nonneg hb0 hw.le
      have n1 : 0 ≤ x + y * w := by linarith
      have n2 : 0 ≤ a + b * w := by linarith
      have hsum : x + y * w = a + b * w := by omega
      obtain ⟨hxa, hyb⟩ := index_inj hx0 hxw ha0 haw hsum
      exact hne ⟨hxa.symm, hyb.symm⟩
  next => rfl

theorem attribBody_self (s : CellState) (x y : Int) (fb : Framebuffer)
    (hwf : WF fb) (hin : inB fb x y) :
    (attribBody s x y fb).Get x y = ((fb.Get x y).1, s) := by
  obtain ⟨w, h, cs⟩ := fb
  unfold WF at hwf
  obtain ⟨hx0, hy0, hxw, hyh⟩ := hin
  have hc : ¬(x < 0 ∨ y < 0 ∨ w ≤ x ∨ h ≤ y) := by push_neg; exact ⟨hx0, hy0, hxw, hyh⟩
  simp only [attribBody]
  rw [if_pos ⟨hx0, hy0, hxw, hyh⟩]
  simp only [Framebuffer.Get]
  simp only [if_neg hc]
  simp only [List.getD_eq_getElem?_getD]
  rw [List.getElem?_set_self]
  · rfl
  · rw [hwf]
    exact idx_lt hx0 hy0 hxw hyh

/-! ### The generic characterisation of the nested rectangle loops -/


theorem mem_intRange {a : Int} {n : Nat} {v : Int} :
    v ∈ intRange a n ↔ a ≤ v ∧ v < a + (n : Int) := by
  unfold intRange
  constructor
  · intro hv
    obtain ⟨i, hi, he⟩ := List.mem_map.mp hv
    have hilt := List.mem_range.mp hi
    omega
  · intro hb
    refine List.mem_map.mpr ⟨(v - a).toNat, List.mem_range.mpr ?_, ?_⟩
    · omega
    · omega

theorem get_rowFold {g : Int → Int → Framebuffer → Framebuffer}
    {u : Int → Int → Int × CellState → Int × CellState}
    (hw : ∀ x y fb, (g x y fb).w = fb.w)
    (hh : ∀ x y fb, (g x y fb).h = fb.h)
    (hlen : ∀ x y fb, (g x y fb).chars.length = fb.chars.length)
    (hoob : ∀ x y fb, ¬ inB fb x y → g x y fb = fb)
    (hother : ∀ x y a b fb, ¬(a = x ∧ b = y) → (g x y fb).Get a b = fb.Get a b)
    (hself : ∀ x y fb, WF fb → inB fb x y → (g x y fb).Get x y = u x y (fb.Get x y))
    (hidem : ∀ x y p, u x y (u x y p) = u x y p)
    (y : Int) (xs : List Int) (f : Framebuffer) (hwf : WF f) (a b : Int) :
    (xs.foldl (fun fb x => g x y fb) f).Get a b =
      if b = y ∧ a ∈ xs ∧ inB f a b then u a b (f.Get a b) else f.Get a b := by
  induction xs generalizing f with
  | nil => simp
  | cons x xs ih =>
    have hwf2 : WF (g x y f) := by
      unfold WF
      rw [hlen, hw, hh]
      exact hwf
    have hinb_eq : inB (g x y f) a b ↔ inB f a b := by
      unfold inB
      rw [hw, hh]
    rw [List.foldl_cons, ih (g x y f) hwf2]
    by_cases hab : a = x ∧ b = y
    · obtain ⟨ha, hb⟩ := hab
      subst ha
      subst hb
      by_cases hin : inB f a b
      · rw [hself a b f hwf hin]
        rw [if_pos (show b = b ∧ a ∈ a :: xs ∧ inB f a b from
          ⟨rfl, List.mem_cons_self a xs, hin⟩)]
        by_cases hmem : a ∈ xs
        · rw [if_pos (show b = b ∧ a ∈ xs ∧ inB (g a b f) a b from
            ⟨rfl, hmem, hinb_eq.mpr hin⟩)]
          exact hidem a b _
        · rw [if_neg (show ¬(b = b ∧ a ∈ xs ∧ inB (g a b f) a b) from
            fun hcon => hmem hcon.2.1)]
      · rw [hoob a b f hin]
        rw [if_neg (show ¬(b = b ∧ a ∈ xs ∧ inB f a b) from fun hcon => hin hcon.2.2),
          if_neg (show ¬(b = b ∧ a ∈ a :: xs ∧ inB f a b) from fun hcon => hin hcon.2.2)]
    · rw [hother x y a b f hab]
      have hcond : (b = y ∧ a ∈ xs ∧ inB (g x y f) a b) ↔
          (b = y ∧ a ∈ x :: xs ∧ inB f a b) := by
        rw [hinb_eq]
        constructor
        · rintro ⟨h1, h2, h3⟩
          exact ⟨h1, List.mem_cons_of_mem _ h2, h3⟩
        · rintro ⟨h1, h2, h3⟩
          rcases List.mem_cons.mp h2 with hax | hax
          · exact absurd ⟨hax, h1⟩ hab
          · exact ⟨h1, hax, h3⟩
      rw [if_congr hcond rfl rfl]

theorem rowFold_w {g : Int → Int → Framebuffer → Framebuffer}
    (hw : ∀ x y fb, (g x y fb).w = fb.w) (y : Int) (xs : List Int) (f : Framebuffer) :
    (xs.foldl (fun fb x => g x y fb) f).w = f.w := by
  induction xs generalizing f with
  | nil => rfl
  | cons x xs ih => rw [List.foldl_cons, ih, hw]

theorem rowFold_h {g : Int → Int → Framebuffer → Framebuffer}
    (hh : ∀ x y fb, (g x y fb).h = fb.h) (y : Int) (xs : List Int) (f : Framebuffer) :
    (xs.foldl (fun fb x => g x y fb) f).h = f.h := by
  induction xs generalizing f with
  | nil => rfl
  | cons x xs ih => rw [List.foldl_cons, ih, hh]

theorem rowFold_length {g : Int → Int → Framebuffer → Framebuffer}
    (hlen : ∀ x y fb, (g x y fb).chars.length = fb.chars.length)
    (y : Int) (xs : List Int) (f : Framebuffer) :
    (xs.foldl (fun fb x => g x y fb) f).chars.length = f.chars.length := by
  induction xs generalizing f with
  | nil => rfl
  | cons x xs ih => rw [List.foldl_cons, ih, hlen]

theorem get_cellFold {g : Int → Int → Framebuffer → Framebuffer}
    {u : Int → Int → Int × CellState → Int × CellState}
    (hw : ∀ x y fb, (g x y fb).w = fb.w)
    (hh : ∀ x y fb, (g x y fb).h = fb.h)
    (hlen : ∀ x y fb, (g x y fb).chars.length = fb.chars.length)
    (hoob : ∀ x y fb, ¬ inB fb x y → g x y fb = fb)
    (hother : ∀ x y a b fb, ¬(a = x ∧ b = y) → (g x y fb).Get a b = fb.Get a b)
    (hself : ∀ x y fb, WF fb → inB fb x y → (g x y fb).Get x y = u x y (fb.Get x y))
    (hidem : ∀ x y p, u x y (u x y p) = u x y p)
    (ys xs : List Int) (f : Framebuffer) (hwf : WF f) (a b : Int) :
    (cellFold g f ys xs).Get a b =
      if b ∈ ys ∧ a ∈ xs ∧ inB f a b then u a b (f.Get a b) else f.Get a b := by
  induction ys generalizing f with
  | nil => simp [cellFold]
  | cons y ys ih =>
    have hrow := get_rowFold hw hh hlen hoob hother hself hidem y xs f hwf a b
    have hwfrow : WF (xs.foldl (fun fb x => g x y fb) f) := by
      unfold WF
      rw [rowFold_length hlen, rowFold_w hw, rowFold_h hh]
      exact hwf
    have hinb_eq : inB (xs.foldl (fun fb x => g x y fb) f) a b ↔ inB f a b := by
      unfold inB
      rw [rowFold_w hw, rowFold_h hh]
    have hstep : cellFold g f (y :: ys) xs =
        cellFold g (xs.foldl (fun fb x => g x y fb) f) ys xs := rfl
    rw [hstep, ih _ hwfrow, hrow]
    by_cases hby : b = y
    · subst hby
      by_cases hmem : a ∈ xs
      · by_cases hin : inB f a b
        · rw [if_pos (show b = b ∧ a ∈ xs ∧ inB f a b from ⟨rfl, hmem, hin⟩)]
          rw [if_pos (show b ∈ b :: ys ∧ a ∈ xs ∧ inB f a b from
            ⟨List.mem_cons_self b ys, hmem, hin⟩)]
          by_cases hbys : b ∈ ys
          · rw [if_pos (show b ∈ ys ∧ a ∈ xs ∧
                inB (xs.foldl (fun fb x => g x b fb) f) a b from
              ⟨hbys, hmem, hinb_eq.mpr hin⟩)]
            exact hidem a b _
          · rw [if_neg (show ¬(b ∈ ys ∧ a ∈ xs ∧
                inB (xs.foldl (fun fb x => g x b fb) f) a b) from
              fun hcon => hbys hcon.1)]
        · rw [if_neg (show ¬(b = b ∧ a ∈ xs ∧ inB f a b) from fun hcon => hin hcon.2.2)]
          rw [if_neg (show ¬(b ∈ ys ∧ a ∈ xs ∧
              inB (xs.foldl (fun fb x => g x b fb) f) a b) from
            fun hcon => hin (hinb_eq.mp hcon.2.2))]
          rw [if_neg (show ¬(b ∈ b :: ys ∧ a ∈ xs ∧ inB f a b) from
            fun hcon => hin hcon.2.2)]
      · rw [if_neg (show ¬(b = b ∧ a ∈ xs ∧ inB f a b) from fun hcon => hmem hcon.2.1)]
        rw [if_neg (show ¬(b ∈ ys ∧ a ∈ xs ∧
            inB (xs.foldl (fun fb x => g x b fb) f) a b) from
          fun hcon => hmem hcon.2.1)]
        rw [if_neg (show ¬(b ∈ b :: ys ∧ a ∈ xs ∧ inB f a b) from
          fun hcon => hmem hcon.2.1)]
    · rw [if_neg (show ¬(b = y ∧ a ∈ xs ∧ inB f a b) from fun hcon => hby hcon.1)]
      have hcond : (b ∈ ys ∧ a ∈ xs ∧ inB (xs.foldl (fun fb x => g x y fb) f) a b) ↔
          (b ∈ y :: ys ∧ a ∈ xs ∧ inB f a b) := by
        rw [hinb_eq]
        constructor
        · rintro ⟨h1, h2, h3⟩
          exact ⟨List.mem_cons_of_mem _ h1, h2, h3⟩
        · rintro ⟨h1, h2, h3⟩
          rcases List.mem_cons.mp h1 with hb2 | hb2
          · exact absurd hb2 hby
          · exact ⟨hb2, h2, h3⟩
      rw [if_congr hcond rfl rfl]

theorem intRange_toNat_cond (a v n : Int) :
    v ∈ intRange a n.toNat ↔ a ≤ v ∧ v < a + n := by
  rw [mem_intRange]
  omega

/-- Pointwise description of `SetRect`: inside the rectangle and the grid
the cell becomes `(r, s)`, everywhere else it is untouched. -/
theorem get_SetRect (f : Framebuffer) (x0 y0 w h : Int) (s : CellState) (r : Int)
    (hwf : WF f) (a b : Int) :
    (f.SetRect x0 y0 w h s r).Get a b =
      if (y0 ≤ b ∧ b < y0 + h) ∧ (x0 ≤ a ∧ a < x0 + w) ∧ inB f a b then (r, s)
      else f.Get a b := by
  unfold Framebuffer.SetRect
  rw [get_cellFold (u := fun _ _ _ => (r, s))
    (fun x y fb => fb.Set_w x y s r)
    (fun x y fb => fb.Set_h x y s r)
    (fun x y fb => fb.Set_length x y s r)
    (fun x y fb hn => fb.Set_oob x y s r ((not_inB_iff fb x y).mp hn))
    (fun x y a b fb hne => fb.Get_Set_other x y a b s r hne)
    (fun x y fb hwf2 hin => fb.Get_Set_self x y s r hwf2 hin)
    (fun _ _ _ => rfl)
    (intRange y0 h.toNat) (intRange x0 w.toNat) f hwf a b]
  rw [if_congr (iff_of_eq (by rw [intRange_toNat_cond, intRange_toNat_cond])) rfl rfl]

/-- Pointwise description of `AttribRect`: inside the rectangle and the
grid the cell keeps its rune and takes state `s`; everywhere else it is
untouched. -/
theorem get_AttribRect (f : Framebuffer) (x0 y0 w h : Int) (s : CellState)
    (hwf : WF f) (a b : Int) :
    (f.AttribRect x0 y0 w h s).Get a b =
      if (y0 ≤ b ∧ b < y0 + h) ∧ (x0 ≤ a ∧ a < x0 + w) ∧ inB f a b then
        ((f.Get a b).1, s)
      else f.Get a b := by
  unfold Framebuffer.AttribRect
  rw [get_cellFold (u := fun _ _ p => (p.1, s))
    (attribBody_w s) (attribBody_h s) (attribBody_length s)
    (attribBody_oob s)
    (fun x y a b fb hne => attribBody_other s x y a b fb hne)
    (fun x y fb hwf2 hin => attribBody_self s x y fb hwf2 hin)
    (fun _ _ _ => rfl)
    (intRange y0 h.toNat) (intRange x0 w.toNat) f hwf a b]
  rw [if_congr (iff_of_eq (by rw [intRange_toNat_cond, intRange_toNat_cond])) rfl rfl]

theorem asciiBody_w (c : List Int) (x0 y0 w h : Int) (ci : Bool) (x y : Int)
    (fb : Framebuffer) : (asciiBody c x0 y0 w h ci x y fb).w = fb.w := by
  unfold asciiBody
  cases asciiRectRune c x0 y0 w h ci x y with
  | some r => exact fb.SetRune_w x y r
  | none => rfl

theorem asciiBody_h (c : List Int) (x0 y0 w h : Int) (ci : Bool) (x y : Int)
    (fb : Framebuffer) : (asciiBody c x0 y0 w h ci x y fb).h = fb.h := by
  unfold asciiBody
  cases asciiRectRune c x0 y0 w h ci x y with
  | some r => exact fb.SetRune_h x y r
  | none => rfl

theorem asciiBody_length (c : List Int) (x0 y0 w h : Int) (ci : Bool) (x y : Int)
    (fb : Framebuffer) :
    (asciiBody c x0 y0 w h ci x y fb).chars.length = fb.chars.length := by
  unfold asciiBody
  cases asciiRectRune c x0 y0 w h ci x y with
  | some r => exact fb.SetRune_length x y r
  | none => rfl

theorem asciiBody_oob (c : List Int) (x0 y0 w h : Int) (ci : Bool) (x y : Int)
    (fb : Framebuffer) (hn : ¬ inB fb x y) : asciiBody c x0 y0 w h ci x y fb = fb := by
  unfold asciiBody
  cases asciiRectRune c x0 y0 w h ci x y with
  | some r => exact fb.SetRune_oob x y r ((not_inB_iff fb x y).mp hn)
  | none => rfl

theorem asciiBody_other (c : List Int) (x0 y0 w h : Int) (ci : Bool) (x y a b : Int)
    (fb : Framebuffer) (hne : ¬(a = x ∧ b = y)) :
    (asciiBody c x0 y0 w h ci x y fb).Get a b = fb.Get a b := by
  unfold asciiBody
  cases asciiRectRune c x0 y0 w h ci x y with
  | some r => exact fb.Get_SetRune_other x y a b r hne
  | none => rfl

theorem asciiBody_self (c : List Int) (x0 y0 w h : Int) (ci : Bool) (x y : Int)
    (fb : Framebuffer) (hwf : WF fb) (hin : inB fb x y) :
    (asciiBody c x0 y0 w h ci x y fb).Get x y =
      (fun x y (p : Int × CellState) =>
        match asciiRectRune c x0 y0 w h ci x y with
        | some r => (r, p.2)
        | none => p) x y (fb.Get x y) := by
  unfold asciiBody
  cases hr : asciiRectRune c x0 y0 w h ci x y with
  | some r =>
    simp only [hr]
    exact fb.Get_SetRune_self x y r hwf hin
  | none =>
    simp only [hr]

theorem asciiUpd_idem (c : List Int) (x0 y0 w h : Int) (ci : Bool) (x y : Int)
    (p : Int × CellState) :
    (fun x y (p : Int × CellState) =>
      match asciiRectRune c x0 y0 w h ci x y with
      | some r => (r, p.2)
      | none => p) x y
      ((fun x y (p : Int × CellState) =>
        match asciiRectRune c x0 y0 w h ci x y with
        | some r => (r, p.2)
        | none => p) x y p) =
    (fun x y (p : Int × CellState) =>
      match asciiRectRune c x0 y0 w h ci x y with
      | some r => (r, p.2)
      | none => p) x y p := by
  cases hr : asciiRectRune c x0 y0 w h ci x y <;> simp [hr]

/-- Pointwise description of `ASCIIRect` over an arbitrary charset list:
inside the rectangle and the grid the cell's rune becomes the border
rune chosen by the source's branch tree (its state untouched), and the
cell is skipped entirely when that tree yields `none`. -/
theorem get_asciiCellFold (c : List Int) (x0 y0 w h : Int) (ci : Bool)
    (f : Framebuffer) (hwf : WF f) (a b : Int) :
    (cellFold (asciiBody c x0 y0 w h ci) f (intRange y0 h.toNat)
        (intRange x0 w.toNat)).Get a b =
      if (y0 ≤ b ∧ b < y0 + h) ∧ (x0 ≤ a ∧ a < x0 + w) ∧ inB f a b then
        match asciiRectRune c x0 y0 w h ci a b with
        | some r => (r, (f.Get a b).2)
        | none => f.Get a b
      else f.Get a b := by
  rw [get_cellFold
    (u := fun x y (p : Int × CellState) =>
      match asciiRectRune c x0 y0 w h ci x y with
      | some r => (r, p.2)
      | none => p)
    (asciiBody_w c x0 y0 w h ci) (asciiBody_h c x0 y0 w h ci)
    (asciiBody_length c x0 y0 w h ci) (asciiBody_oob c x0 y0 w h ci)
    (asciiBody_other c x0 y0 w h ci)
    (asciiBody_self c x0 y0 w h ci)
    (asciiUpd_idem c x0 y0 w h ci)
    (intRange y0 h.toNat) (intRange x0 w.toNat) f hwf a b]
  rw [if_congr (iff_of_eq (by rw [intRange_toNat_cond, intRange_toNat_cond])) rfl rfl]

theorem cellFold_nil_inner (g : Int → Int → Framebuffer → Framebuffer)
    (f : Framebuffer) (ys : List Int) : cellFold g f ys [] = f := by
  induction ys generalizing f with
  | nil => rfl
  | cons y ys ih => exact ih f

set_option maxHeartbeats 1000000 in
theorem asciiRectRune_eq_claimGlyph (c : List Int) (x0 y0 w h : Int) (ci : Bool)
    (hw2 : 2 ≤ w) (hh2 : 2 ≤ h) (a b : Int) :
    asciiRectRune c x0 y0 w h ci a b = claimGlyph c x0 y0 w h ci a b := by
  unfold asciiRectRune claimGlyph
  split_ifs <;> first | rfl | omega

/-! ### Claim theorems -/

/-- C2: for every framebuffer and every out-of-bounds `(x, y)` (negative,
or at least the width/height), `Get` returns the space glyph with the
default state `{AttrNone, ColorDefault, ColorDefault}`, and `Set` and
`SetRune` leave the framebuffer completely unchanged (the operations are
total, so no error is signalled). -/
theorem oob_get_set_noop (f : Framebuffer) (x y : Int) (s : CellState) (r r2 : Int)
    (h : x < 0 ∨ y < 0 ∨ f.w ≤ x ∨ f.h ≤ y) :
    f.Get x y = (32, ⟨AttrNone, ColorDefault, ColorDefault⟩) ∧
    f.Set x y s r = f ∧ f.SetRune x y r2 = f :=
  ⟨f.Get_oob x y h, f.Set_oob x y s r h, f.SetRune_oob x y r2 h⟩

theorem oob_get_set_noop_witness :
    (NewFramebuffer 2 2).Get (-1) 0 = (32, ⟨AttrNone, ColorDefault, ColorDefault⟩) ∧
    (NewFramebuffer 2 2).Set (-1) 0 StateDefault 65 = NewFramebuffer 2 2 ∧
    (NewFramebuffer 2 2).SetRune (-1) 0 66 = NewFramebuffer 2 2 :=
  oob_get_set_noop (NewFramebuffer 2 2) (-1) 0 StateDefault 65 66 (by decide)

/-- C3: for every well-formed framebuffer and in-bounds `(x, y)`, after
`Set(x, y, S, r)` a `Get(x, y)` returns exactly `(r, S)`; and a further
`SetRune(x, y, r2)` replaces only the glyph, so `Get(x, y)` then returns
`(r2, S)`. -/
theorem set_get_roundtrip (f : Framebuffer) (x y : Int) (S : CellState) (r r2 : Int)
    (hwf : WF f) (hin : inB f x y) :
    (f.Set x y S r).Get x y = (r, S) ∧
    ((f.Set x y S r).SetRune x y r2).Get x y = (r2, S) := by
  refine ⟨f.Get_Set_self x y S r hwf hin, ?_⟩
  have hwf2 : WF (f.Set x y S r) := by
    unfold WF
    rw [f.Set_length x y S r, f.Set_w x y S r, f.Set_h x y S r]
    exact hwf
  have hin2 : inB (f.Set x y S r) x y := by
    unfold inB at hin ⊢
    rw [f.Set_w x y S r, f.Set_h x y S r]
    exact hin
  rw [(f.Set x y S r).Get_SetRune_self x y r2 hwf2 hin2, f.Get_Set_self x y S r hwf hin]

theorem set_get_roundtrip_witness :
    WF (NewFramebuffer 3 2) ∧ inB (NewFramebuffer 3 2) 1 1 ∧
    (((NewFramebuffer 3 2).Set 1 1 ⟨1, 31, 44⟩ 65).Get 1 1 = (65, ⟨1, 31, 44⟩) ∧
     (((NewFramebuffer 3 2).Set 1 1 ⟨1, 31, 44⟩ 65).SetRune 1 1 66).Get 1 1 =
       (66, ⟨1, 31, 44⟩)) :=
  ⟨by decide, by decide,
    set_get_roundtrip (NewFramebuffer 3 2) 1 1 ⟨1, 31, 44⟩ 65 66 (by decide) (by decide)⟩

/-- C9: filling a rectangle with non-positive width or height visits no
cell at all, so both `SetRect` and `AttribRect` return the framebuffer
unchanged. -/
theorem empty_rect_noop (f : Framebuffer) (x0 y0 w h : Int) (s : CellState) (r : Int)
    (hwh : w ≤ 0 ∨ h ≤ 0) :
    f.SetRect x0 y0 w h s r = f ∧ f.AttribRect x0 y0 w h s = f := by
  rcases hwh with hw | hh
  · have hxs : intRange x0 w.toNat = [] := by
      unfold intRange
      rw [Int.toNat_of_nonpos hw]
      rfl
    constructor
    · unfold Framebuffer.SetRect
      rw [hxs]
      exact cellFold_nil_inner _ f _
    · unfold Framebuffer.AttribRect
      rw [hxs]
      exact cellFold_nil_inner _ f _
  · have hys : intRange y0 h.toNat = [] := by
      unfold intRange
      rw [Int.toNat_of_nonpos hh]
      rfl
    constructor
    · unfold Framebuffer.SetRect
      rw [hys]
      rfl
    · unfold Framebuffer.AttribRect
      rw [hys]
      rfl

theorem empty_rect_noop_witness :
    ((0 : Int) ≤ 0 ∨ (5 : Int) ≤ 0) ∧
    ((NewFramebuffer 2 2).SetRect 0 0 0 5 StateDefault 65 = NewFramebuffer 2 2 ∧
     (NewFramebuffer 2 2).AttribRect 0 0 0 5 StateDefault = NewFramebuffer 2 2) :=
  ⟨Or.inl le_rfl, empty_rect_noop (NewFramebuffer 2 2) 0 0 0 5 StateDefault 65
    (Or.inl le_rfl)⟩

/-- C7: `SetRect`, `AttribRect` and `ASCIIRect` never change any cell
outside the intersection of their rectangle `[x0, x0+w) × [y0, y0+h)`
with the grid: `Get` at every such cell is exactly what it was before
the call. -/
theorem rect_ops_outside_unchanged (f : Framebuffer) (x0 y0 w h : Int) (s : CellState)
    (r : Int) (dw ci : Bool) (a b : Int) (hwf : WF f)
    (hout : ¬((x0 ≤ a ∧ a < x0 + w) ∧ (y0 ≤ b ∧ b < y0 + h) ∧ inB f a b)) :
    (f.SetRect x0 y0 w h s r).Get a b = f.Get a b ∧
    (f.AttribRect x0 y0 w h s).Get a b = f.Get a b ∧
    (f.ASCIIRect x0 y0 w h dw ci).Get a b = f.Get a b := by
  refine ⟨?_, ?_, ?_⟩
  · rw [get_SetRect f x0 y0 w h s r hwf a b,
      if_neg (fun hc => hout ⟨hc.2.1, hc.1, hc.2.2⟩)]
  · rw [get_AttribRect f x0 y0 w h s hwf a b,
      if_neg (fun hc => hout ⟨hc.2.1, hc.1, hc.2.2⟩)]
  · unfold Framebuffer.ASCIIRect
    rw [get_asciiCellFold _ x0 y0 w h ci f hwf a b,
      if_neg (fun hc => hout ⟨hc.2.1, hc.1, hc.2.2⟩)]

theorem rect_ops_outside_unchanged_witness :
    WF (NewFramebuffer 3 3) ∧
    ¬(((0 : Int) ≤ 2 ∧ (2 : Int) < 0 + 2) ∧ ((0 : Int) ≤ 2 ∧ (2 : Int) < 0 + 2) ∧
      inB (NewFramebuffer 3 3) 2 2) ∧
    ((NewFramebuffer 3 3).SetRect 0 0 2 2 ⟨1, 31, 44⟩ 65).Get 2 2 =
        (NewFramebuffer 3 3).Get 2 2 ∧
    ((NewFramebuffer 3 3).AttribRect 0 0 2 2 ⟨1, 31, 44⟩).Get 2 2 =
        (NewFramebuffer 3 3).Get 2 2 ∧
    ((NewFramebuffer 3 3).ASCIIRect 0 0 2 2 false false).Get 2 2 =
        (NewFramebuffer 3 3).Get 2 2 :=
  ⟨by decide, by decide,
    rect_ops_outside_unchanged (NewFramebuffer 3 3) 0 0 2 2 ⟨1, 31, 44⟩ 65 false false 2 2
      (by decide) (by decide)⟩

set_option maxRecDepth 4000 in
/-- C4 counterexample: for the degenerate rectangle `(1, 1, 1, 1)` the
claimed corner positions coincide; the claim requires `charset[5]`
(`┘`, U+2518) at `(x0+w-1, y0+h-1) = (1, 1)`, but the code writes
`charset[2]` (`┌`, U+250C) there, because the `x == x0` branch is
checked first. -/
theorem asciiRect_corner_overlap_cex :
    ((NewFramebuffer 3 3).ASCIIRect 1 1 1 1 false false).Get 1 1 =
      (0x250C, StateDefault) ∧ (0x250C : Int) ≠ 0x2518 := by
  decide

/-- C4 (amended: for rectangles with `w ≥ 2` and `h ≥ 2`, so that the
four corner cells are distinct): inside the rectangle and the grid,
`ASCIIRect` writes the corner glyphs `charset[2..5]` at the four
corners (corners taking precedence), the horizontal-edge glyph
`charset[0]` along the top and bottom rows between the corners, the
vertical-edge glyph `charset[1]` along the left and right columns, and
leaves interior cells untouched when `clearInside` is false (space when
true); all writes preserve the cell's state (`SetRune` semantics), and
cells outside the rectangle are untouched. -/
theorem asciiRect_border_spec (f : Framebuffer) (x0 y0 w h : Int) (dw ci : Bool)
    (hwf : WF f) (hw2 : 2 ≤ w) (hh2 : 2 ≤ h) (a b : Int) :
    (f.ASCIIRect x0 y0 w h dw ci).Get a b =
      if (y0 ≤ b ∧ b < y0 + h) ∧ (x0 ≤ a ∧ a < x0 + w) ∧ inB f a b then
        match claimGlyph (if dw then doubleWidthCharset else singleWidthCharset)
            x0 y0 w h ci a b with
        | some g => (g, (f.Get a b).2)
        | none => f.Get a b
      else f.Get a b := by
  unfold Framebuffer.ASCIIRect
  rw [get_asciiCellFold _ x0 y0 w h ci f hwf a b]
  rw [asciiRectRune_eq_claimGlyph _ x0 y0 w h ci hw2 hh2 a b]

set_option maxRecDepth 10000 in
theorem asciiRect_border_spec_witness :
    WF (NewFramebuffer 5 5) ∧ (2 : Int) ≤ 5 ∧
    ((NewFramebuffer 5 5).ASCIIRect 0 0 5 5 false false).Get 0 0 =
      (if ((0 : Int) ≤ 0 ∧ (0 : Int) < 0 + 5) ∧ ((0 : Int) ≤ 0 ∧ (0 : Int) < 0 + 5) ∧
          inB (NewFramebuffer 5 5) 0 0 then
        match claimGlyph (if false then doubleWidthCharset else singleWidthCharset)
            0 0 5 5 false 0 0 with
        | some g => (g, ((NewFramebuffer 5 5).Get 0 0).2)
        | none => (NewFramebuffer 5 5).Get 0 0
      else (NewFramebuffer 5 5).Get 0 0) :=
  ⟨by decide, by decide,
    asciiRect_border_spec (NewFramebuffer 5 5) 0 0 5 5 false false (by decide) (by decide)
      (by decide) 0 0⟩

theorem specTextCell_some_le (x0 : Int) (cs : List Char) (cx cy a b : Int) (ch : Char)
    (h : specTextCell x0 cx cy cs a b = some ch) : cy < b ∨ (b = cy ∧ cx ≤ a) := by
  induction cs generalizing cx cy with
  | nil => simp [specTextCell] at h
  | cons c cs ih =>
    unfold specTextCell at h
    by_cases hc : c = '\n'
    · rw [if_pos hc] at h
      rcases ih x0 (cy + 1) h with h1 | ⟨h1, h2⟩
      · omega
      · omega
    · rw [if_neg hc] at h
      by_cases hab : a = cx ∧ b = cy
      · exact Or.inr ⟨hab.2, le_of_eq hab.1.symm⟩
      · rw [if_neg hab] at h
        rcases ih (cx + 1) cy h with h1 | ⟨h1, h2⟩
        · exact Or.inl h1
        · exact Or.inr ⟨h1, by omega⟩

theorem specTextCell_cons (x0 cx cy : Int) (c : Char) (cs : List Char) (a b : Int) :
    specTextCell x0 cx cy (c :: cs) a b =
      if c = '\n' then specTextCell x0 x0 (cy + 1) cs a b
      else if a = cx ∧ b = cy then some c else specTextCell x0 (cx + 1) cy cs a b := rfl

theorem get_setTextAux (x0 : Int) (cs : List Char) (fb : Framebuffer) (i cy : Int)
    (hwf : WF fb) (a b : Int) :
    ((cs.foldl (fun (p : Framebuffer × Int × Int) rv =>
      if rv = '\n' then (p.1, 0, p.2.2 + 1)
      else (p.1.SetRune (x0 + p.2.1) p.2.2 (rv.toNat : Int), p.2.1 + 1, p.2.2))
      (fb, i, cy)).1).Get a b =
    match specTextCell x0 (x0 + i) cy cs a b with
    | some ch => if inB fb a b then ((ch.toNat : Int), (fb.Get a b).2) else fb.Get a b
    | none => fb.Get a b := by
  induction cs generalizing fb i cy with
  | nil => simp [specTextCell]
  | cons c cs ih =>
    rw [List.foldl_cons]
    by_cases hc : c = '\n'
    · simp only [if_pos hc]
      rw [ih fb 0 (cy + 1) hwf, specTextCell_cons, if_pos hc, add_zero]
    · simp only [if_neg hc]
      have hwf2 : WF (fb.SetRune (x0 + i) cy (c.toNat : Int)) := by
        unfold WF
        rw [fb.SetRune_length, fb.SetRune_w, fb.SetRune_h]
        exact hwf
      have hassoc : x0 + (i + 1) = x0 + i + 1 := by ring
      rw [ih _ (i + 1) cy hwf2, specTextCell_cons, if_neg hc, hassoc]
      by_cases hab : a = x0 + i ∧ b = cy
      · rw [if_pos hab]
        obtain ⟨ha, hb⟩ := hab
        have hrest : specTextCell x0 (x0 + i + 1) cy cs a b = none := by
          cases hsr : specTextCell x0 (x0 + i + 1) cy cs a b with
          | none => rfl
          | some ch2 =>
            rcases specTextCell_some_le x0 cs (x0 + i + 1) cy a b ch2 hsr with h1 | ⟨h1, h2⟩
            · omega
            · omega
        rw [hrest, ← ha, ← hb]
        show (fb.SetRune a b (c.toNat : Int)).Get a b =
          if inB fb a b then ((c.toNat : Int), (fb.Get a b).2) else fb.Get a b
        by_cases hin : inB fb a b
        · rw [if_pos hin]
          exact fb.Get_SetRune_self a b (c.toNat : Int) hwf hin
        · rw [if_neg hin, fb.SetRune_oob a b (c.toNat : Int) ((not_inB_iff fb a b).mp hin)]
      · rw [if_neg hab]
        have hGet : (fb.SetRune (x0 + i) cy (c.toNat : Int)).Get a b = fb.Get a b :=
          fb.Get_SetRune_other (x0 + i) cy a b (c.toNat : Int) hab
        have hin_eq : inB (fb.SetRune (x0 + i) cy (c.toNat : Int)) a b ↔ inB fb a b := by
          unfold inB
          rw [fb.SetRune_w, fb.SetRune_h]
        cases hsr : specTextCell x0 (x0 + i + 1) cy cs a b with
        | none => exact hGet
        | some ch2 =>
          show (if inB (fb.SetRune (x0 + i) cy (c.toNat : Int)) a b then
              ((ch2.toNat : Int), ((fb.SetRune (x0 + i) cy (c.toNat : Int)).Get a b).2)
            else (fb.SetRune (x0 + i) cy (c.toNat : Int)).Get a b) =
            if inB fb a b then ((ch2.toNat : Int), (fb.Get a b).2) else fb.Get a b
          by_cases hin : inB fb a b
          · rw [if_pos (hin_eq.mpr hin), if_pos hin, hGet]
          · rw [if_neg (fun hx => hin (hin_eq.mp hx)), if_neg hin]
            exact hGet

/-- C6: `SetText(x0, y0, s)` writes the code points of `s` left to right
one per column starting at `(x0, y0)`; each newline emits nothing,
resets the column to `x0` and advances the row by one; characters
falling outside the grid are clipped (silently dropped); and cell
states are never modified — a written cell keeps its prior state, all
other cells are untouched entirely. -/
theorem setText_spec (f : Framebuffer) (x0 y0 : Int) (t : List Char) (hwf : WF f)
    (a b : Int) :
    (f.SetText x0 y0 t).Get a b =
      match specTextCell x0 x0 y0 t a b with
      | some ch => if inB f a b then ((ch.toNat : Int), (f.Get a b).2) else f.Get a b
      | none => f.Get a b := by
  unfold Framebuffer.SetText
  have h := get_setTextAux x0 t f 0 y0 hwf a b
  rw [add_zero] at h
  exact h

set_option maxRecDepth 8000 in
theorem setText_spec_witness :
    WF (NewFramebuffer 4 2) ∧
    ((NewFramebuffer 4 2).SetText 0 0 ['a', 'b', '\n', 'c', 'd']).Get 0 1 =
      (match specTextCell 0 0 0 ['a', 'b', '\n', 'c', 'd'] 0 1 with
       | some ch => if inB (NewFramebuffer 4 2) 0 1 then
           ((ch.toNat : Int), ((NewFramebuffer 4 2).Get 0 1).2)
         else (NewFramebuffer 4 2).Get 0 1
       | none => (NewFramebuffer 4 2).Get 0 1) :=
  ⟨by decide, setText_spec (NewFramebuffer 4 2) 0 0 ['a', 'b', '\n', 'c', 'd'] (by decide) 0 1⟩

theorem centerRow_w (x d row : Int) (cs : List Char) (fb : Framebuffer) (i : Int) :
    ((cs.foldl (fun (q : Framebuffer × Int) rv =>
      (q.1.SetRune (x + q.2 - d) row (rv.toNat : Int), q.2 + 1)) (fb, i)).1).w = fb.w := by
  induction cs generalizing fb i with
  | nil => rfl
  | cons c cs ih => rw [List.foldl_cons, ih, Framebuffer.SetRune_w]

theorem centerRow_h (x d row : Int) (cs : List Char) (fb : Framebuffer) (i : Int) :
    ((cs.foldl (fun (q : Framebuffer × Int) rv =>
      (q.1.SetRune (x + q.2 - d) row (rv.toNat : Int), q.2 + 1)) (fb, i)).1).h = fb.h := by
  induction cs generalizing fb i with
  | nil => rfl
  | cons c cs ih => rw [List.foldl_cons, ih, Framebuffer.SetRune_h]

theorem centerRow_length (x d row : Int) (cs : List Char) (fb : Framebuffer) (i : Int) :
    ((cs.foldl (fun (q : Framebuffer × Int) rv =>
      (q.1.SetRune (x + q.2 - d) row (rv.toNat : Int), q.2 + 1)) (fb, i)).1).chars.length =
      fb.chars.length := by
  induction cs generalizing fb i with
  | nil => rfl
  | cons c cs ih => rw [List.foldl_cons, ih, Framebuffer.SetRune_length]

theorem get_centerRowAux (x d row : Int) (cs : List Char) (fb : Framebuffer) (i : Int)
    (hwf : WF fb) (a b : Int) :
    ((cs.foldl (fun (q : Framebuffer × Int) rv =>
      (q.1.SetRune (x + q.2 - d) row (rv.toNat : Int), q.2 + 1)) (fb, i)).1).Get a b =
    if b = row ∧ x + i - d ≤ a ∧ a < x + i - d + (cs.length : Int) then
      (if inB fb a b then
        (((cs.getD (a - (x + i - d)).toNat ' ').toNat : Int), (fb.Get a b).2)
       else fb.Get a b)
    else fb.Get a b := by
  induction cs generalizing fb i with
  | nil =>
    rw [if_neg]
    · rfl
    · rintro ⟨-, h1, h2⟩
      simp only [List.length_nil] at h2
      omega
  | cons c cs ih =>
    rw [List.foldl_cons]
    have hwf2 : WF (fb.SetRune (x + i - d) row (c.toNat : Int)) := by
      unfold WF
      rw [fb.SetRune_length, fb.SetRune_w, fb.SetRune_h]
      exact hwf
    rw [ih _ (i + 1) hwf2]
    have hlen : ((c :: cs).length : Int) = (cs.length : Int) + 1 := by
      simp
    by_cases hab : a = x + i - d ∧ b = row
    · obtain ⟨ha2, hb2⟩ := hab
      rw [if_neg (by
        rintro ⟨-, hl, -⟩
        omega)]
      rw [if_pos (show b = row ∧ x + i - d ≤ a ∧ a < x + i - d + ((c :: cs).length : Int)
        from ⟨hb2, by omega, by rw [hlen]; omega⟩)]
      have hidx0 : (a - (x + i - d)).toNat = 0 := by omega
      rw [hidx0, List.getD_cons_zero, ← ha2, ← hb2]
      by_cases hin : inB fb a b
      · rw [if_pos hin]
        exact fb.Get_SetRune_self a b (c.toNat : Int) hwf hin
      · rw [if_neg hin, fb.SetRune_oob a b (c.toNat : Int) ((not_inB_iff fb a b).mp hin)]
    · have hGet : (fb.SetRune (x + i - d) row (c.toNat : Int)).Get a b = fb.Get a b :=
        fb.Get_SetRune_other (x + i - d) row a b (c.toNat : Int) hab
      have hin_eq : inB (fb.SetRune (x + i - d) row (c.toNat : Int)) a b ↔ inB fb a b := by
        unfold inB
        rw [fb.SetRune_w, fb.SetRune_h]
      by_cases hcond : b = row ∧ x + i - d ≤ a ∧ a < x + i - d + ((c :: cs).length : Int)
      · obtain ⟨hb2, hl, hr⟩ := hcond
        have hne_a : a ≠ x + i - d := fun he => hab ⟨he, hb2⟩
        rw [hlen] at hr
        rw [if_pos (show b = row ∧ x + (i + 1) - d ≤ a ∧
            a < x + (i + 1) - d + (cs.length : Int) from ⟨hb2, by omega, by omega⟩)]
        rw [if_pos (show b = row ∧ x + i - d ≤ a ∧ a < x + i - d + ((c :: cs).length : Int)
          from ⟨hb2, hl, by rw [hlen]; omega⟩)]
        have hidx : (a - (x + i - d)).toNat = (a - (x + (i + 1) - d)).toNat + 1 := by omega
        rw [hidx, List.getD_cons_succ, hGet]
        by_cases hin : inB fb a b
        · rw [if_pos (hin_eq.mpr hin), if_pos hin]
        · rw [if_neg (fun hx => hin (hin_eq.mp hx)), if_neg hin]
      · rw [if_neg (by
          rintro ⟨h1, h2, h3⟩
          exact hcond ⟨h1, by omega, by rw [hlen]; omega⟩)]
        rw [if_neg hcond]
        exact hGet

theorem centerSpecCell_cons (x cy : Int) (s : List Char) (rest : List (List Char))
    (a b : Int) :
    centerSpecCell x cy (s :: rest) a b =
      if b = cy then
        (if (x - ((utf8Len s / 2 : Nat) : Int)) ≤ a ∧
            a < (x - ((utf8Len s / 2 : Nat) : Int)) + (s.length : Int) then
          some (s.getD (a - (x - ((utf8Len s / 2 : Nat) : Int))).toNat ' ')
        else none)
      else centerSpecCell x (cy + 1) rest a b := rfl

theorem centerSpecCell_some_le (x : Int) (lines : List (List Char)) (cy a b : Int)
    (ch : Char) (h : centerSpecCell x cy lines a b = some ch) : cy ≤ b := by
  induction lines generalizing cy with
  | nil => simp [centerSpecCell] at h
  | cons s rest ih =>
    rw [centerSpecCell_cons] at h
    by_cases hb : b = cy
    · omega
    · rw [if_neg hb] at h
      have := ih (cy + 1) h
      omega

theorem get_centerLinesAux (x : Int) (lines : List (List Char)) (fb : Framebuffer)
    (cy : Int) (hwf : WF fb) (a b : Int) :
    ((lines.foldl (fun (p : Framebuffer × Int) s =>
      ((s.foldl (fun (q : Framebuffer × Int) rv =>
          (q.1.SetRune (x + q.2 - ((utf8Len s / 2 : Nat) : Int)) p.2 (rv.toNat : Int),
           q.2 + 1)) (p.1, (0 : Int))).1,
       p.2 + 1)) (fb, cy)).1).Get a b =
    match centerSpecCell x cy lines a b with
    | some ch => if inB fb a b then ((ch.toNat : Int), (fb.Get a b).2) else fb.Get a b
    | none => fb.Get a b := by
  induction lines generalizing fb cy with
  | nil => rfl
  | cons s rest ih =>
    simp only [List.foldl_cons]
    have hwf1 : WF ((s.foldl (fun (q : Framebuffer × Int) rv =>
        (q.1.SetRune (x + q.2 - ((utf8Len s / 2 : Nat) : Int)) cy (rv.toNat : Int),
         q.2 + 1)) (fb, (0 : Int))).1) := by
      unfold WF
      rw [centerRow_length, centerRow_w, centerRow_h]
      exact hwf
    rw [ih _ (cy + 1) hwf1]
    have hrow := get_centerRowAux x ((utf8Len s / 2 : Nat) : Int) cy s fb 0 hwf a b
    rw [show x + 0 - ((utf8Len s / 2 : Nat) : Int) = x - ((utf8Len s / 2 : Nat) : Int)
      from by ring] at hrow
    by_cases hb2 : b = cy
    · have hrest : centerSpecCell x (cy + 1) rest a b = none := by
        cases hsr : centerSpecCell x (cy + 1) rest a b with
        | none => rfl
        | some ch2 =>
          have := centerSpecCell_some_le x rest (cy + 1) a b ch2 hsr
          omega
      rw [hrest, centerSpecCell_cons, if_pos hb2]
      by_cases hcol : (x - ((utf8Len s / 2 : Nat) : Int)) ≤ a ∧
          a < (x - ((utf8Len s / 2 : Nat) : Int)) + (s.length : Int)
      · rw [if_pos hcol]
        show ((s.foldl (fun (q : Framebuffer × Int) rv =>
            (q.1.SetRune (x + q.2 - ((utf8Len s / 2 : Nat) : Int)) cy (rv.toNat : Int),
             q.2 + 1)) (fb, (0 : Int))).1).Get a b =
          if inB fb a b then
            (((s.getD (a - (x - ((utf8Len s / 2 : Nat) : Int))).toNat ' ').toNat : Int),
              (fb.Get a b).2)
          else fb.Get a b
        rw [hrow, if_pos ⟨hb2, hcol.1, hcol.2⟩]
      · rw [if_neg hcol]
        show ((s.foldl (fun (q : Framebuffer × Int) rv =>
            (q.1.SetRune (x + q.2 - ((utf8Len s / 2 : Nat) : Int)) cy (rv.toNat : Int),
             q.2 + 1)) (fb, (0 : Int))).1).Get a b = fb.Get a b
        rw [hrow, if_neg (by
          rintro ⟨-, h2, h3⟩
          exact hcol ⟨h2, h3⟩)]
    · rw [centerSpecCell_cons, if_neg hb2]
      have hGet : ((s.foldl (fun (q : Framebuffer × Int) rv =>
          (q.1.SetRune (x + q.2 - ((utf8Len s / 2 : Nat) : Int)) cy (rv.toNat : Int),
           q.2 + 1)) (fb, (0 : Int))).1).Get a b = fb.Get a b := by
        rw [hrow, if_neg (fun hc => hb2 hc.1)]
      have hin_eq : inB ((s.foldl (fun (q : Framebuffer × Int) rv =>
          (q.1.SetRune (x + q.2 - ((utf8Len s / 2 : Nat) : Int)) cy (rv.toNat : Int),
           q.2 + 1)) (fb, (0 : Int))).1) a b ↔ inB fb a b := by
        unfold inB
        rw [centerRow_w, centerRow_h]
      cases hsr : centerSpecCell x (cy + 1) rest a b with
      | none => exact hGet
      | some ch2 =>
        show (if inB ((s.foldl (fun (q : Framebuffer × Int) rv =>
              (q.1.SetRune (x + q.2 - ((utf8Len s / 2 : Nat) : Int)) cy (rv.toNat : Int),
               q.2 + 1)) (fb, (0 : Int))).1) a b then
            ((ch2.toNat : Int), (((s.foldl (fun (q : Framebuffer × Int) rv =>
              (q.1.SetRune (x + q.2 - ((utf8Len s / 2 : Nat) : Int)) cy (rv.toNat : Int),
               q.2 + 1)) (fb, (0 : Int))).1).Get a b).2)
          else ((s.foldl (fun (q : Framebuffer × Int) rv =>
              (q.1.SetRune (x + q.2 - ((utf8Len s / 2 : Nat) : Int)) cy (rv.toNat : Int),
               q.2 + 1)) (fb, (0 : Int))).1).Get a b) =
          if inB fb a b then ((ch2.toNat : Int), (fb.Get a b).2) else fb.Get a b
        by_cases hin : inB fb a b
        · rw [if_pos (hin_eq.mpr hin), if_pos hin, hGet]
        · rw [if_neg (fun hx => hin (hin_eq.mp hx)), if_neg hin]
          exact hGet

set_option maxRecDepth 8000 in
/-- C5 counterexample: the claim computes the start column from the
number of code points, but Go's `len` is the UTF-8 byte count.  For the
one-character line `"é"` (1 code point, 2 bytes) centred at column 5 on
a 10×2 framebuffer the claim puts the glyph at column 5 − 1/2 = 5, but
the code computes 5 − 2/2 = 4: column 5 keeps its blank and `é`
(code point 233) lands at column 4. -/
theorem centerText_bytelen_cex :
    ((NewFramebuffer 10 2).CenterText 5 0 ['é']).Get 5 0 = (32, StateDefault) ∧
    ((NewFramebuffer 10 2).CenterText 5 0 ['é']).Get 4 0 = (233, StateDefault) := by
  decide

/-- C5 (amended: the start column of each line is `x − len(line)/2` where
`len` is the line's UTF-8 *byte* length, matching Go's `len` on a
string; for pure-ASCII lines this coincides with the code-point count,
so `CenterText(5, 0, "hi")` still puts `h` at column 4 and `i` at
column 5): `CenterText` splits on newlines, places line `k` on row
`y0 + k` with its code points at consecutive columns from the start
column, clips out-of-grid cells, and never modifies any cell state. -/
theorem centerText_spec (f : Framebuffer) (x y0 : Int) (t : List Char) (hwf : WF f)
    (a b : Int) :
    (f.CenterText x y0 t).Get a b =
      match centerSpecCell x y0 (splitLines t) a b with
      | some ch => if inB f a b then ((ch.toNat : Int), (f.Get a b).2) else f.Get a b
      | none => f.Get a b := by
  unfold Framebuffer.CenterText
  exact get_centerLinesAux x (splitLines t) f y0 hwf a b

set_option maxRecDepth 8000 in
theorem centerText_spec_witness :
    WF (NewFramebuffer 10 2) ∧
    ((NewFramebuffer 10 2).CenterText 5 0 ['h', 'i']).Get 4 0 =
      (match centerSpecCell 5 0 (splitLines ['h', 'i']) 4 0 with
       | some ch => if inB (NewFramebuffer 10 2) 4 0 then
           ((ch.toNat : Int), ((NewFramebuffer 10 2).Get 4 0).2)
         else (NewFramebuffer 10 2).Get 4 0
       | none => (NewFramebuffer 10 2).Get 4 0) :=
  ⟨by decide, centerText_spec (NewFramebuffer 10 2) 5 0 ['h', 'i'] (by decide) 4 0⟩

theorem isMouseDown_iff (s : ScanCode) :
    ScanCode.IsMouseDownEvent s = true ↔
      s.length = 6 ∧ s.getD 0 0 = 27 ∧ s.getD 1 0 = 91 ∧ s.getD 2 0 = 77 ∧
      s.getD 3 0 = 32 := by
  unfold ScanCode.IsMouseDownEvent ScanCode.IsEscapeCode
  constructor
  · intro h
    simp only [Bool.and_eq_true, beq_iff_eq, decide_eq_true_eq] at h
    exact ⟨h.1.1.1, h.1.1.2.1.2, h.1.1.2.2, h.1.2, h.2⟩
  · rintro ⟨h1, h2, h3, h4, h5⟩
    simp only [Bool.and_eq_true, beq_iff_eq, decide_eq_true_eq]
    exact ⟨⟨⟨h1, ⟨by omega, h2⟩, h3⟩, h4⟩, h5⟩

theorem mouseCoords_eq (s : ScanCode) :
    ScanCode.MouseCoords s =
      if 6 ≤ s.length then
        some ((((s.getD 4 0 + 256 - 33) % 256 : Nat) : Int),
              (((s.getD 5 0 + 256 - 33) % 256 : Nat) : Int))
      else none := by
  unfold ScanCode.MouseCoords
  by_cases h : 6 ≤ s.length
  · have h4 : s.get? 4 = some (s.getD 4 0) := by
      rw [List.get?_eq_getElem?, List.getElem?_eq_getElem (by omega),
        List.getD_eq_getElem?_getD, List.getElem?_eq_getElem (by omega)]
      rfl
    have h5 : s.get? 5 = some (s.getD 5 0) := by
      rw [List.get?_eq_getElem?, List.getElem?_eq_getElem (by omega),
        List.getD_eq_getElem?_getD, List.getElem?_eq_getElem (by omega)]
      rfl
    rw [h4, h5, if_pos h]
  · have h5 : s.get? 5 = none := by
      rw [List.get?_eq_getElem?]
      exact List.getElem?_eq_none (by omega)
    rw [h5, if_neg h]
    cases s.get? 4 <;> rfl

/-- C8 counterexample: the byte list `{27, 91, 77, 32, 40, 50, 0}` of the
spec's scenario 6 has length 7, and `IsMouseDownEvent` requires
`len(s) == 6`, so the record does NOT satisfy `IsMouseDownEvent`
(contradicting the claim's "satisfies ... IsMouseDownEvent"). -/
theorem mouse_scenario_length_cex :
    ScanCode.IsMouseDownEvent [27, 91, 77, 32, 40, 50, 0] = false := by
  decide

/-- C8 (amended): `IsMouseDownEvent(s)` holds iff `s` has length exactly 6
with `s[0] = 27`, `s[1] = 91`, `s[2] = 77`, `s[3] = 32`; `MouseCoords`
performs *byte* subtraction, returning `((s[4]+256−33) mod 256,
(s[5]+256−33) mod 256)` — equal to `(s[4]−33, s[5]−33)` whenever both
bytes are ≥ 33, as in every X10 mouse report — and is defined (indexing
in bounds) exactly when the record has length ≥ 6; and the *length-6*
record `{27, 91, 77, 32, 40, 50}` satisfies `IsEscapeCode`,
`IsMouseDownEvent` and `MouseCoords() = (7, 17)`. -/
theorem mouse_events_spec (s : ScanCode) :
    (ScanCode.IsMouseDownEvent s = true ↔
      s.length = 6 ∧ s.getD 0 0 = 27 ∧ s.getD 1 0 = 91 ∧ s.getD 2 0 = 77 ∧
      s.getD 3 0 = 32) ∧
    ScanCode.MouseCoords s =
      (if 6 ≤ s.length then
        some ((((s.getD 4 0 + 256 - 33) % 256 : Nat) : Int),
              (((s.getD 5 0 + 256 - 33) % 256 : Nat) : Int))
      else none) ∧
    (ScanCode.IsEscapeCode [27, 91, 77, 32, 40, 50] = true ∧
     ScanCode.IsMouseDownEvent [27, 91, 77, 32, 40, 50] = true ∧
     ScanCode.MouseCoords [27, 91, 77, 32, 40, 50] = some (7, 17)) :=
  ⟨isMouseDown_iff s, mouseCoords_eq s, by decide, by decide, by decide⟩

/-- C10: `EscapeCode` indexes byte 2 and `MouseCoords` bytes 4 and 5 with
no length guard, so the indexing is in bounds exactly for records of
length ≥ 3 (resp. ≥ 6); every record built by `ReadScanCode` has length
exactly 6, so on library-produced records both accessors are total. -/
theorem scanCode_accessor_bounds (s : ScanCode) (input : List Nat) :
    ((ScanCode.EscapeCode s).isSome ↔ 3 ≤ s.length) ∧
    ((ScanCode.MouseCoords s).isSome ↔ 6 ≤ s.length) ∧
    (ReadScanCode input).length = 6 ∧
    (ScanCode.EscapeCode (ReadScanCode input)).isSome ∧
    (ScanCode.MouseCoords (ReadScanCode input)).isSome := by
  have hlen : (ReadScanCode input).length = 6 := by
    unfold ReadScanCode
    rw [List.length_append, List.length_take, List.length_replicate]
    omega
  have hesc : ∀ u : ScanCode, ((ScanCode.EscapeCode u).isSome ↔ 3 ≤ u.length) := by
    intro u
    unfold ScanCode.EscapeCode
    rw [List.get?_eq_getElem?, Option.isSome_iff_exists]
    constructor
    · rintro ⟨v, hv⟩
      have := (List.getElem?_eq_some_iff.mp hv).1
      omega
    · intro hu
      exact ⟨u.get ⟨2, by omega⟩, List.getElem?_eq_some_iff.mpr ⟨by omega, rfl⟩⟩
  have hmc : ∀ u : ScanCode, ((ScanCode.MouseCoords u).isSome ↔ 6 ≤ u.length) := by
    intro u
    rw [mouseCoords_eq]
    by_cases h : 6 ≤ u.length
    · rw [if_pos h]
      simp [h]
    · rw [if_neg h]
      simp [h]
  exact ⟨hesc s, hmc s, hlen, (hesc _).mpr (by omega), (hmc _).mpr (by omega)⟩

theorem foldl_cells (l : List Nat) (cellf : Nat → cell) (acc : List Int) :
    l.foldl (fun acc3 (x : Nat) =>
      let c := cellf x
      if c.r < 32 then acc3 else acc3 ++ cellSeq c) acc =
    acc ++ (l.map fun x => if (cellf x).r < 32 then [] else cellSeq (cellf x)).flatten := by
  induction l generalizing acc with
  | nil => simp
  | cons c0 l ih =>
    rw [List.foldl_cons]
    show l.foldl _ (if (cellf c0).r < 32 then acc else acc ++ cellSeq (cellf c0)) = _
    by_cases hc : (cellf c0).r < 32
    · rw [if_pos hc, ih, List.map_cons, if_pos hc, List.flatten_cons, List.nil_append]
    · rw [if_neg hc, ih, List.map_cons, if_neg hc, List.flatten_cons, ← List.append_assoc]

theorem specBody_singleton (a : List Int) : specBody [a] = a := by
  simp [specBody]

theorem specBody_append_singleton (l : List (List Int)) (hl : l ≠ []) (a : List Int) :
    specBody (l ++ [a]) = specBody l ++ 10 :: a := by
  cases l with
  | nil => exact absurd rfl hl
  | cons r rs =>
    simp [specBody, List.map_append, List.flatten_append, List.append_assoc]

theorem foldl_rows_spec (row : Nat → List Int) (n : Nat) :
    (List.range n).foldl (fun acc y =>
        (if y ≠ 0 then acc ++ [10] else acc) ++ row y) [] =
      specBody ((List.range n).map row) := by
  induction n with
  | zero => rfl
  | succ n ih =>
    rw [List.range_succ, List.foldl_append, List.foldl_cons, List.foldl_nil, ih,
      List.map_append, List.map_cons, List.map_nil]
    by_cases hn : n = 0
    · subst hn
      simp [specBody, specBody_singleton, List.range_zero]
    · rw [specBody_append_singleton _ (by
        intro hmap
        have : (List.range n).length = 0 := by rw [← List.length_map (f := row), hmap]; rfl
        rw [List.length_range] at this
        exact hn this) (row n)]
      rw [if_pos hn]
      rw [List.append_assoc]
      rfl

theorem flush_body_eq (f : Framebuffer) :
    (List.range f.h.toNat).foldl (fun acc (y : Nat) =>
      (List.range f.w.toNat).foldl (fun acc3 (x : Nat) =>
        let c := f.chars.getD ((y : Int) * f.w + (x : Int)).toNat zeroCell
        if c.r < 32 then acc3 else acc3 ++ cellSeq c)
        (if y ≠ 0 then acc ++ [10] else acc)) [] =
    specBody ((List.range f.h.toNat).map (rowOut f)) := by
  rw [List.foldl_ext _ (fun acc y => (if y ≠ 0 then acc ++ [10] else acc) ++ rowOut f y) []
    (fun acc y hy => foldl_cells (List.range f.w.toNat)
      (fun x => f.chars.getD ((y : Int) * f.w + (x : Int)).toNat zeroCell)
      (if y ≠ 0 then acc ++ [10] else acc))]
  exact foldl_rows_spec (rowOut f) f.h.toNat

theorem mem_decDigitsAux (fuel n : Nat) (e : Int) (he : e ∈ decDigitsAux fuel n) :
    48 ≤ e ∧ e ≤ 57 := by
  induction fuel generalizing n with
  | zero => simp [decDigitsAux] at he
  | succ fuel ih =>
    unfold decDigitsAux at he
    split at he
    · simp only [List.mem_singleton] at he
      omega
    · rcases List.mem_append.mp he with h1 | h2
      · exact ih _ h1
      · simp only [List.mem_singleton] at h2
        have : n % 10 < 10 := Nat.mod_lt _ (by omega)
        omega

theorem mem_fmtInt (i : Int) (e : Int) (he : e ∈ fmtInt i) :
    e = 45 ∨ (48 ≤ e ∧ e ≤ 57) := by
  unfold fmtInt at he
  split at he
  · rcases List.mem_cons.mp he with h | h
    · exact Or.inl h
    · exact Or.inr (mem_decDigitsAux _ _ _ h)
  · exact Or.inr (mem_decDigitsAux _ _ _ he)

theorem count_cursorToSeq (r c : Int) : (cursorToSeq r c).count 10 = 0 := by
  rw [List.count_eq_zero]
  intro hmem
  unfold cursorToSeq at hmem
  rcases List.mem_append.mp hmem with h | h
  swap
  · simp only [List.mem_singleton] at h
    omega
  rcases List.mem_append.mp h with h | h
  swap
  · rcases mem_fmtInt c 10 h with h2 | h2 <;> omega
  rcases List.mem_append.mp h with h | h
  swap
  · simp only [List.mem_singleton] at h
    omega
  rcases List.mem_append.mp h with h | h
  · simp only [List.mem_cons, List.not_mem_nil, or_false] at h
    omega
  · rcases mem_fmtInt r 10 h with h2 | h2 <;> omega

theorem not_mem_cellSeq (c : cell) (hc : 32 ≤ c.r) : (10 : Int) ∉ cellSeq c := by
  intro hmem
  unfold cellSeq sgrReset at hmem
  rcases List.mem_append.mp hmem with h | h
  swap
  · simp only [List.mem_cons, List.not_mem_nil, or_false] at h
    omega
  rcases List.mem_append.mp h with h | h
  swap
  · simp only [List.mem_cons, List.not_mem_nil, or_false] at h
    omega
  rcases List.mem_append.mp h with h | h
  swap
  · rcases mem_fmtInt _ 10 h with h2 | h2 <;> omega
  rcases List.mem_append.mp h with h | h
  swap
  · simp only [List.mem_singleton] at h
    omega
  rcases List.mem_append.mp h with h | h
  swap
  · rcases mem_fmtInt _ 10 h with h2 | h2 <;> omega
  rcases List.mem_append.mp h with h | h
  swap
  · simp only [List.mem_singleton] at h
    omega
  rcases List.mem_append.mp h with h | h
  swap
  · rcases mem_fmtInt _ 10 h with h2 | h2 <;> omega
  · simp only [List.mem_cons, List.not_mem_nil, or_false] at h
    omega

theorem not_mem_rowOut (f : Framebuffer) (y : Nat) : (10 : Int) ∉ rowOut f y := by
  intro hmem
  unfold rowOut at hmem
  rcases List.mem_flatten.mp hmem with ⟨l, hl, h10⟩
  rcases List.mem_map.mp hl with ⟨x, hx, rfl⟩
  unfold cellOut at h10
  by_cases hc : (f.chars.getD ((y : Int) * f.w + (x : Int)).toNat zeroCell).r < 32
  · rw [if_pos hc] at h10
    exact List.not_mem_nil 10 h10
  · rw [if_neg hc] at h10
    exact not_mem_cellSeq _ (by omega) h10

theorem count_flatten_newline (rs : List (List Int)) (h : ∀ r ∈ rs, (10 : Int) ∉ r) :
    ((rs.map fun q => 10 :: q).flatten).count 10 = rs.length := by
  induction rs with
  | nil => rfl
  | cons r rs ih =>
    rw [List.map_cons, List.flatten_cons, List.count_append, List.count_cons]
    rw [List.count_eq_zero.mpr (h r (List.mem_cons_self r rs)),
      ih (fun q hq => h q (List.mem_cons_of_mem _ hq))]
    simp
    omega

theorem count_specBody (rows : List (List Int)) (hrows : ∀ r ∈ rows, (10 : Int) ∉ r) :
    (specBody rows).count 10 = rows.length - 1 := by
  cases rows with
  | nil => rfl
  | cons r rs =>
    show (r ++ (rs.map fun q => 10 :: q).flatten).count 10 = (r :: rs).length - 1
    rw [List.count_append, List.count_eq_zero.mpr (hrows r (List.mem_cons_self r rs)),
      count_flatten_newline rs (fun q hq => hrows q (List.mem_cons_of_mem _ hq))]
    simp

/-- C1: the byte stream produced by `Flush` is exactly the cursor-home
sequence, then the rows `y = 0..H-1` joined by a single newline before
each row except the first (hence exactly `H − 1` newline characters in
the whole stream, the second conjunct), where a row prints, for each
column in order, nothing for a glyph below 32 and the self-contained
`ESC[attr;fg;bg+10m glyph ESC[0m` otherwise; then a final `ESC[0m`;
then `ESC[cy+1;cx+1H` for the remembered cursor position. -/
theorem flush_stream_spec (f : Framebuffer) (cx cy : Int) :
    f.Flush cx cy = flushSpecStream f cx cy ∧
    (f.Flush cx cy).count 10 = f.h.toNat - 1 := by
  have heq : f.Flush cx cy = flushSpecStream f cx cy := by
    unfold Framebuffer.Flush flushSpecStream
    rw [flush_body_eq f]
  refine ⟨heq, ?_⟩
  rw [heq]
  unfold flushSpecStream
  rw [List.count_append, List.count_append, List.count_append]
  have h1 : homeSeq.count 10 = 0 := by decide
  have h2 : sgrReset.count 10 = 0 := by decide
  have h3 : (cursorToSeq (cy + 1) (cx + 1)).count 10 = 0 := count_cursorToSeq _ _
  have h4 : (specBody ((List.range f.h.toNat).map (rowOut f))).count 10 =
      ((List.range f.h.toNat).map (rowOut f)).length - 1 := by
    apply count_specBody
    intro r hr
    rcases List.mem_map.mp hr with ⟨y, hy, rfl⟩
    exact not_mem_rowOut f y
  rw [h1, h2, h3, h4, List.length_map, List.length_range]
  omega
